import Mathlib

/-!
Verification of the backtesting core of the stock_picker repository.

The development shallowly embeds the two portfolio simulators and the
performance-metrics calculator of the source tree:

* `backend/app/services/backtesting/engine.py` (`BacktestEngine`), embedded
  in namespace `Engine`: slippage-aware simulation, trade extraction,
  data validation and the backtest driver;
* `backend/app/services/visualization/performance_metrics.py`, embedded in
  namespace `PM`: the metrics module's own simulator (hardcoded 10 percent
  position sizing, no slippage, forced end-of-period liquidation), its trade
  extraction, and the aggregate statistics of `calculate_metrics`.

Python floats are idealized as rationals (`ℚ`); data-frame rows become lists
of records walked in order, exactly as `df.iterrows()` does.
-/

namespace StockPicker

/-- One row of the signals data frame: the strategy signal (−1, 0 or +1 in
practice, any integer in the embedding) and the bar's close price. -/
structure Row where
  signal : ℤ
  close : ℚ
deriving DecidableEq

/-- The running portfolio state threaded through the simulation loop:
available cash and currently held share count. -/
@[ext]
structure PortState where
  cash : ℚ
  shares : ℚ
deriving DecidableEq

/-- One output row of the simulated portfolio data frame: the input columns
plus the `portfolio_value`, `position`, `cash` and `shares` columns appended
by `_simulate_portfolio`. -/
structure BarRecord where
  signal : ℤ
  close : ℚ
  portfolioValue : ℚ
  position : ℕ
  cash : ℚ
  shares : ℚ
deriving DecidableEq

/-- The per-bar record appended after the state update: `portfolio_value =
cash + shares * price` at the bar's unadjusted close, `position = 1` iff
shares are held. -/
def record (s : PortState) (r : Row) : BarRecord :=
  { signal := r.signal, close := r.close,
    portfolioValue := s.cash + s.shares * r.close,
    position := if 0 < s.shares then 1 else 0,
    cash := s.cash, shares := s.shares }

namespace Engine

/-- The engine's execution configuration (`BacktestEngine.__init__`). -/
structure Config where
  initialCapital : ℚ
  commission : ℚ
  slippage : ℚ
  positionSizePct : ℚ
deriving DecidableEq

/-- Slippage-adjusted execution price (engine.py lines 220-226): buys pay
`close * (1 + slippage)`, sells receive `close * (1 - slippage)`. -/
def execPrice (slippage : ℚ) (signal : ℤ) (price : ℚ) : ℚ :=
  if signal = 1 then price * (1 + slippage)
  else if signal = -1 then price * (1 - slippage)
  else price

/-- One loop iteration of `BacktestEngine._simulate_portfolio`
(engine.py lines 216-246), state update only.  A buy is taken when
`signal == 1 and shares == 0` and is guarded by `shares_to_buy > 0`;
a sell of all shares is taken when `signal == -1 and shares > 0`. -/
def step (cfg : Config) (s : PortState) (r : Row) : PortState :=
  let executionPrice := execPrice cfg.slippage r.signal r.close
  if r.signal = 1 ∧ s.shares = 0 then
    let investment := s.cash * cfg.positionSizePct
    let commissionCost := investment * cfg.commission
    let sharesToBuy := (investment - commissionCost) / executionPrice
    if 0 < sharesToBuy then
      { cash := s.cash - investment, shares := s.shares + sharesToBuy }
    else s
  else if r.signal = -1 ∧ 0 < s.shares then
    let proceeds := s.shares * executionPrice
    let commissionCost := proceeds * cfg.commission
    { cash := s.cash + (proceeds - commissionCost), shares := 0 }
  else s

/-- The simulation loop: update the state for the bar, then append the
bar's record. -/
def simAux (cfg : Config) (s : PortState) : List Row → List BarRecord
  | [] => []
  | r :: rest =>
    let s2 := step cfg s r
    record s2 r :: simAux cfg s2 rest

/-- `BacktestEngine._simulate_portfolio` (engine.py lines 196-260).  Note:
this simulator performs no forced end-of-period liquidation. -/
def simulatePortfolio (cfg : Config) (rows : List Row) : List BarRecord :=
  simAux cfg { cash := cfg.initialCapital, shares := 0 } rows

end Engine

namespace PM

/-- One loop iteration of `_simulate_portfolio`
(performance_metrics.py lines 222-249): position size hardcoded to 10
percent of cash, trades execute at the unadjusted close (the module has no
slippage input), and the buy carries no `shares_to_buy > 0` guard. -/
def step (commission : ℚ) (s : PortState) (r : Row) : PortState :=
  if r.signal = 1 ∧ s.shares = 0 then
    let investment := s.cash * (1 / 10)
    let commissionCost := investment * commission
    let sharesToBuy := (investment - commissionCost) / r.close
    { cash := s.cash - investment, shares := s.shares + sharesToBuy }
  else if r.signal = -1 ∧ 0 < s.shares then
    let proceeds := s.shares * r.close
    let commissionCost := proceeds * commission
    { cash := s.cash + (proceeds - commissionCost), shares := 0 }
  else s

/-- The metrics module's simulation loop. -/
def simAux (commission : ℚ) (s : PortState) : List Row → List BarRecord
  | [] => []
  | r :: rest =>
    let s2 := step commission s r
    record s2 r :: simAux commission s2 rest

/-- The forced-liquidation overwrite of the final bar
(performance_metrics.py lines 255-266): sell all shares at the final close,
pay commission on the proceeds, and overwrite the bar's
`portfolio_value`, `position`, `cash` and `shares`. -/
def liquidate (commission : ℚ) (b : BarRecord) : BarRecord :=
  let proceeds := b.shares * b.close
  let commissionCost := proceeds * commission
  let newCash := b.cash + (proceeds - commissionCost)
  { b with portfolioValue := newCash, position := 0, cash := newCash, shares := 0 }

/-- `_simulate_portfolio` (performance_metrics.py lines 202-273): run the
loop, then, if shares are still held after the last bar, force-liquidate and
overwrite the final record.  The loop's final share count is the final
record's `shares` field, and the final bar's close is that record's `close`. -/
def simulatePortfolio (initialCapital commission : ℚ) (rows : List Row) :
    List BarRecord :=
  let recs := simAux commission { cash := initialCapital, shares := 0 } rows
  match recs.getLast? with
  | none => recs
  | some b => if 0 < b.shares then recs.dropLast ++ [liquidate commission b] else recs

end PM

namespace Engine

/-- A completed round-trip trade as built by `BacktestEngine._extract_trades`
(engine.py lines 262-304).  Dates are embedded as bar indices; on an integer
index the source's duration fallback is the constant `1`. -/
structure Trade where
  entryIdx : ℕ
  exitIdx : ℕ
  entryPrice : ℚ
  exitPrice : ℚ
  shares : ℚ
  profit : ℚ
  profitPct : ℚ
  duration : ℕ
  entryValue : ℚ
  exitValue : ℚ
deriving DecidableEq

/-- The entry-side bookkeeping held while a position is open. -/
structure EntryInfo where
  idx : ℕ
  price : ℚ
  value : ℚ
  shares : ℚ
deriving DecidableEq

/-- Closing a trade at bar `i` (engine.py lines 280-302):
`profit = exit_value - entry_value` and
`profit_pct = profit / entry_value * 100` when `entry_value > 0`, else `0`. -/
def closeTrade (e : EntryInfo) (i : ℕ) (b : BarRecord) : Trade :=
  let profit := b.portfolioValue - e.value
  { entryIdx := e.idx, exitIdx := i, entryPrice := e.price, exitPrice := b.close,
    shares := e.shares, profit := profit,
    profitPct := if 0 < e.value then profit / e.value * 100 else 0,
    duration := 1,
    entryValue := e.value, exitValue := b.portfolioValue }

/-- The extraction walk: a `position` transition 0→1 opens, 1→0 closes. -/
def extractAux (i : ℕ) (entry : Option EntryInfo) :
    List BarRecord → List Trade
  | [] => []
  | b :: rest =>
    match entry with
    | none =>
      if b.position = 1 then
        extractAux (i + 1)
          (some { idx := i, price := b.close, value := b.portfolioValue,
                  shares := b.shares }) rest
      else extractAux (i + 1) none rest
    | some e =>
      if b.position = 0 then
        closeTrade e i b :: extractAux (i + 1) none rest
      else extractAux (i + 1) (some e) rest

/-- `BacktestEngine._extract_trades` (engine.py lines 262-304). -/
def extractTrades (pf : List BarRecord) : List Trade := extractAux 0 none pf

end Engine

namespace PM

/-- A completed round-trip trade as built by the metrics module's
`_extract_trades` (performance_metrics.py lines 276-321).  `ret` embeds the
dict's `return` key; on an integer index the source's duration fallback is
the inclusive label-slice length `exit - entry + 1`. -/
structure Trade where
  entryIdx : ℕ
  exitIdx : ℕ
  entryPrice : ℚ
  exitPrice : ℚ
  profit : ℚ
  ret : ℚ
  duration : ℕ
deriving DecidableEq

/-- The entry-side bookkeeping held while a position is open. -/
structure EntryInfo where
  idx : ℕ
  price : ℚ
  value : ℚ
deriving DecidableEq

/-- Closing a trade at bar `i` (performance_metrics.py lines 298-315):
`profit = exit_value - entry_value` and
`return = (exit_price - entry_price) / entry_price`. -/
def closeTrade (e : EntryInfo) (i : ℕ) (b : BarRecord) : Trade :=
  { entryIdx := e.idx, exitIdx := i, entryPrice := e.price, exitPrice := b.close,
    profit := b.portfolioValue - e.value,
    ret := (b.close - e.price) / e.price,
    duration := i - e.idx + 1 }

/-- The extraction walk: a `position` transition 0→1 opens, 1→0 closes. -/
def extractAux (i : ℕ) (entry : Option EntryInfo) :
    List BarRecord → List Trade
  | [] => []
  | b :: rest =>
    match entry with
    | none =>
      if b.position = 1 then
        extractAux (i + 1)
          (some { idx := i, price := b.close, value := b.portfolioValue }) rest
      else extractAux (i + 1) none rest
    | some e =>
      if b.position = 0 then
        closeTrade e i b :: extractAux (i + 1) none rest
      else extractAux (i + 1) (some e) rest

/-- `_extract_trades` (performance_metrics.py lines 276-321). -/
def extractTrades (pf : List BarRecord) : List Trade := extractAux 0 none pf

/-- Python's `max(l)` on a nonempty list; the callers guard the empty case
with `if l else 0`, embedded here as the value `0`. -/
def listMax : List ℚ → ℚ
  | [] => 0
  | x :: xs => xs.foldl max x

/-- Python's `min(l)` on a nonempty list; `0` on the guarded empty case. -/
def listMin : List ℚ → ℚ
  | [] => 0
  | x :: xs => xs.foldl min x

/-- `np.mean`: sum divided by length (`0 / 0 = 0` on the empty list, which
every caller guards anyway). -/
def mean (l : List ℚ) : ℚ := l.sum / l.length

/-- The profit-factor computation of `calculate_metrics`
(performance_metrics.py lines 135-146): the sum of winning profits divided
by the absolute sum of losing profits, and `float('inf')` — embedded as
`⊤ : WithTop ℚ` — whenever the loss total is not positive. -/
def profitFactor (trades : List Trade) : WithTop ℚ :=
  let wins := (trades.filter (fun t => 0 < t.profit)).map (fun t => t.profit)
  let losses := (trades.filter (fun t => t.profit < 0)).map (fun t => t.profit)
  let totalWins : ℚ := wins.sum
  let totalLosses : ℚ := |losses.sum|
  if 0 < totalLosses then ((totalWins / totalLosses : ℚ) : WithTop ℚ) else ⊤

/-- `_calculate_buy_hold_return` (performance_metrics.py lines 387-430):
the benchmark buys with a hardcoded 10 percent of capital at the first
close, holds the remaining 90 percent as cash, sells at the last close, and
returns the relative change of the total portfolio; `0` when fewer than two
bars exist. -/
def calculateBuyHoldReturn (closes : List ℚ) (initialCapital commission : ℚ) : ℚ :=
  match closes with
  | c0 :: c1 :: rest =>
    let lastPrice := (c1 :: rest).getLast (List.cons_ne_nil c1 rest)
    let positionSizePct : ℚ := 1 / 10
    let investmentAmount := initialCapital * positionSizePct
    let buyCommission := investmentAmount * commission
    let sharesBought := (investmentAmount - buyCommission) / c0
    let cash := initialCapital - investmentAmount
    let proceeds := sharesBought * lastPrice
    let sellCommission := proceeds * commission
    let finalInvestedValue := proceeds - sellCommission
    let finalPortfolioValue := cash + finalInvestedValue
    (finalPortfolioValue - initialCapital) / initialCapital
  | _ => 0

/-- The buy-and-hold benchmark as the specification words it: the position
opened on bar 0 is sized by the configured `position_size_pct` — the same
fraction the live strategy uses — with the uninvested remainder held as
cash to the last bar, and the return taken on the total portfolio.  Stated
for comparison with `calculateBuyHoldReturn`, which hardcodes the fraction. -/
def buyHoldReturnSpec (positionSizePct : ℚ) (closes : List ℚ)
    (initialCapital commission : ℚ) : ℚ :=
  match closes with
  | c0 :: c1 :: rest =>
    let lastPrice := (c1 :: rest).getLast (List.cons_ne_nil c1 rest)
    let investmentAmount := initialCapital * positionSizePct
    let buyCommission := investmentAmount * commission
    let sharesBought := (investmentAmount - buyCommission) / c0
    let cash := initialCapital - investmentAmount
    let proceeds := sharesBought * lastPrice
    let sellCommission := proceeds * commission
    let finalInvestedValue := proceeds - sellCommission
    let finalPortfolioValue := cash + finalInvestedValue
    (finalPortfolioValue - initialCapital) / initialCapital
  | _ => 0

/-- `_calculate_sortino_ratio` (performance_metrics.py lines 336-351).
The sample standard deviation and the numeric value of `sqrt(252)` are
irrational in general, so the embedding takes them as parameters `std` and
`sqrt252`; the claims proved here do not depend on their values.  `⊤`
embeds `float('inf')`. -/
def sortino (std : List ℚ → ℚ) (sqrt252 : ℚ) (returns : List ℚ)
    (riskFreeRate : ℚ) : WithTop ℚ :=
  if returns = [] then ((0 : ℚ) : WithTop ℚ)
  else
    let excessReturns := mean returns * 252 - riskFreeRate
    let downsideReturns := returns.filter (fun r => r < 0)
    if downsideReturns = [] then ⊤
    else
      let downsideStd := std downsideReturns * sqrt252
      if downsideStd ≠ 0 then ((excessReturns / downsideStd : ℚ) : WithTop ℚ)
      else ((0 : ℚ) : WithTop ℚ)

/-- The subset of the `PerformanceMetrics` record whose fields involve only
rational arithmetic.  CAGR, Sharpe, Sortino, volatility and the drawdown
statistics need real square roots and powers and are treated separately. -/
structure MetricsCore where
  totalReturn : ℚ
  totalTrades : ℕ
  winningTrades : ℕ
  losingTrades : ℕ
  winRate : ℚ
  profitFactor : WithTop ℚ
  averageWin : ℚ
  averageLoss : ℚ
  averageTrade : ℚ
  largestWin : ℚ
  largestLoss : ℚ
  expectancy : ℚ
  finalPortfolioValue : ℚ
  initialPortfolioValue : ℚ
  buyHoldReturn : ℚ
deriving DecidableEq

/-- The rational-valued core of `calculate_metrics`
(performance_metrics.py lines 90-199): simulate, extract trades, and
aggregate.  The final portfolio value is the trajectory's last
`portfolio_value` (the source indexes `iloc[-1]`, defined only on nonempty
input; the empty case is embedded as `0`). -/
def calculateMetricsCore (rows : List Row) (initialCapital commission : ℚ) :
    MetricsCore :=
  let portfolioHistory := simulatePortfolio initialCapital commission rows
  let finalValue := ((portfolioHistory.map (fun b => b.portfolioValue)).getLastD 0)
  let totalReturn := (finalValue - initialCapital) / initialCapital
  let trades := extractTrades portfolioHistory
  let totalTrades := trades.length
  let wins := (trades.filter (fun t => 0 < t.profit)).map (fun t => t.profit)
  let losses := (trades.filter (fun t => t.profit < 0)).map (fun t => t.profit)
  let winningTrades := (trades.filter (fun t => 0 < t.profit)).length
  let losingTrades := (trades.filter (fun t => t.profit < 0)).length
  let winRate : ℚ := if 0 < totalTrades then (winningTrades : ℚ) / (totalTrades : ℚ) else 0
  let averageWin := if wins = [] then 0 else mean wins
  let averageLoss := if losses = [] then 0 else mean losses
  let averageTrade := if trades = [] then 0 else mean (trades.map (fun t => t.profit))
  let expectancy := winRate * averageWin + (1 - winRate) * averageLoss
  { totalReturn := totalReturn,
    totalTrades := totalTrades,
    winningTrades := winningTrades,
    losingTrades := losingTrades,
    winRate := winRate,
    profitFactor := profitFactor trades,
    averageWin := averageWin,
    averageLoss := averageLoss,
    averageTrade := averageTrade,
    largestWin := listMax wins,
    largestLoss := listMin losses,
    expectancy := expectancy,
    finalPortfolioValue := finalValue,
    initialPortfolioValue := initialCapital,
    buyHoldReturn := calculateBuyHoldReturn (rows.map (fun r => r.close))
      initialCapital commission }

end PM

namespace Engine

/-- The OHLCV columns `_validate_data` requires (engine.py line 187). -/
def requiredColumns : List String := ["open", "high", "low", "close", "volume"]

/-- The input data frame as the validation and simulation layers see it:
its column names and its close-price column. -/
structure InputData where
  columns : List String
  closes : List ℚ

/-- The required columns absent from the data (engine.py line 188). -/
def missingColumns (data : InputData) : List String :=
  requiredColumns.filter (fun c => ¬ c ∈ data.columns)

/-- `BacktestEngine._validate_data` (engine.py lines 185-194): missing
columns or fewer than 50 bars abort the run. -/
def validateData (data : InputData) : Except String Unit :=
  if missingColumns data ≠ [] then .error "Data missing required columns"
  else if data.closes.length < 50 then .error "Insufficient data"
  else .ok ()

/-- The strategy contract as the engine consumes it: a declared minimum
history and a signal generator producing one signal per bar. -/
structure Strategy where
  requiredHistory : ℕ
  genSignals : List ℚ → List ℤ

/-- `Strategy.validate_data` (base_strategy.py lines 250-270), which every
concrete strategy's `setup` invokes: missing columns or a bar count below
the strategy's declared minimum history abort the run. -/
def strategySetup (strat : Strategy) (data : InputData) : Except String Unit :=
  if missingColumns data ≠ [] then .error "Data missing required columns"
  else if data.closes.length < strat.requiredHistory then
    .error "Insufficient data for strategy"
  else .ok ()

/-- The loop body of `_simulate_portfolio` with the division made explicit:
`none` embeds the `ZeroDivisionError` Python would raise when a buy divides
by a zero execution price. -/
def stepE (cfg : Config) (s : PortState) (r : Row) : Option PortState :=
  let executionPrice := execPrice cfg.slippage r.signal r.close
  if r.signal = 1 ∧ s.shares = 0 then
    if executionPrice = 0 then none
    else
      let investment := s.cash * cfg.positionSizePct
      let commissionCost := investment * cfg.commission
      let sharesToBuy := (investment - commissionCost) / executionPrice
      if 0 < sharesToBuy then
        some { cash := s.cash - investment, shares := s.shares + sharesToBuy }
      else some s
  else if r.signal = -1 ∧ 0 < s.shares then
    let proceeds := s.shares * executionPrice
    let commissionCost := proceeds * cfg.commission
    some { cash := s.cash + (proceeds - commissionCost), shares := 0 }
  else some s

/-- The simulation loop over the fallible step. -/
def simAuxE (cfg : Config) (s : PortState) : List Row → Option (List BarRecord)
  | [] => some []
  | r :: rest =>
    match stepE cfg s r with
    | none => none
    | some s2 =>
      match simAuxE cfg s2 rest with
      | none => none
      | some out => some (record s2 r :: out)

/-- `BacktestEngine.run_backtest` (engine.py lines 86-153) restricted to its
algorithmic core: engine validation, then strategy setup validation, then
signal generation, then portfolio simulation.  Failures surface in order as
`Except.error`. -/
def runBacktest (cfg : Config) (strat : Strategy) (data : InputData) :
    Except String (List BarRecord) :=
  match validateData data with
  | .error e => .error e
  | .ok _ =>
    match strategySetup strat data with
    | .error e => .error e
    | .ok _ =>
      let signals := strat.genSignals data.closes
      match simAuxE cfg { cash := cfg.initialCapital, shares := 0 }
          ((signals.zip data.closes).map (fun p => { signal := p.1, close := p.2 })) with
      | some h => .ok h
      | none => .error "zero execution price in simulation"

end Engine

/-! ### Structural lemmas about the simulators -/

/-- Every record the engine loop appends carries `portfolio_value = cash +
shares * close` and `position = 1` iff shares are held, by construction. -/
theorem Engine.simAux_shape (cfg : Engine.Config) (rows : List Row) :
    ∀ (s : PortState), ∀ b ∈ Engine.simAux cfg s rows,
      b.portfolioValue = b.cash + b.shares * b.close ∧
      b.position = if 0 < b.shares then 1 else 0 := by
  induction rows with
  | nil => intro s b hb; simp [Engine.simAux] at hb
  | cons r rest ih =>
    intro s b hb
    simp only [Engine.simAux, List.mem_cons] at hb
    rcases hb with rfl | hb
    · exact ⟨rfl, rfl⟩
    · exact ih _ b hb

/-- Every record the metrics-module loop appends carries `portfolio_value =
cash + shares * close` and `position = 1` iff shares are held. -/
theorem PM.simAux_accounting (commission : ℚ) (rows : List Row) :
    ∀ (s : PortState), ∀ b ∈ PM.simAux commission s rows,
      b.portfolioValue = b.cash + b.shares * b.close ∧
      b.position = if 0 < b.shares then 1 else 0 := by
  induction rows with
  | nil => intro s b hb; simp [PM.simAux] at hb
  | cons r rest ih =>
    intro s b hb
    simp only [PM.simAux, List.mem_cons] at hb
    rcases hb with rfl | hb
    · exact ⟨rfl, rfl⟩
    · exact ih _ b hb

/-- The liquidation overwrite keeps the accounting shape: the new value is
all cash, no shares are held, and the flag is cleared. -/
theorem PM.liquidate_shape (commission : ℚ) (b : BarRecord) :
    (PM.liquidate commission b).portfolioValue =
      (PM.liquidate commission b).cash +
        (PM.liquidate commission b).shares * (PM.liquidate commission b).close ∧
    (PM.liquidate commission b).position = 0 ∧
    (PM.liquidate commission b).shares = 0 := by
  refine ⟨?_, rfl, rfl⟩
  simp [PM.liquidate]

/-- Membership in the finished metrics-module trajectory comes either from
the loop output or from the liquidation overwrite. -/
theorem PM.mem_simulatePortfolio (initialCapital commission : ℚ) (rows : List Row)
    (b : BarRecord) (hb : b ∈ PM.simulatePortfolio initialCapital commission rows) :
    b ∈ PM.simAux commission { cash := initialCapital, shares := 0 } rows ∨
    ∃ bl, b = PM.liquidate commission bl := by
  simp only [PM.simulatePortfolio] at hb
  split at hb
  · exact Or.inl hb
  · split at hb
    · rcases List.mem_append.mp hb with h | h
      · exact Or.inl ((List.dropLast_sublist _).subset h)
      · exact Or.inr ⟨_, List.mem_singleton.mp h⟩
    · exact Or.inl hb

/-- The loop output is nonempty whenever the input is. -/
theorem PM.simAux_ne_nil (commission : ℚ) (s : PortState) (rows : List Row)
    (h : rows ≠ []) : PM.simAux commission s rows ≠ [] := by
  cases rows with
  | nil => exact absurd rfl h
  | cons r rest => simp [PM.simAux]

/-- One engine step keeps cash and shares nonnegative, under the documented
configuration bounds and a nonnegative close. -/
theorem Engine.step_preserves (cfg : Engine.Config) (r : Row)
    (hcomm0 : 0 ≤ cfg.commission) (hcomm1 : cfg.commission ≤ 1)
    (hpct : cfg.positionSizePct ≤ 1)
    (hslip1 : cfg.slippage ≤ 1) (hclose : 0 ≤ r.close)
    (s : PortState) (hc : 0 ≤ s.cash) (hs : 0 ≤ s.shares) :
    0 ≤ (Engine.step cfg s r).cash ∧ 0 ≤ (Engine.step cfg s r).shares := by
  simp only [Engine.step]
  split_ifs with h1 h2 h3
  · constructor
    · have : s.cash * cfg.positionSizePct ≤ s.cash :=
        mul_le_of_le_one_right hc hpct
      simpa using sub_nonneg.mpr this
    · exact add_nonneg hs (le_of_lt h2)
  · exact ⟨hc, hs⟩
  · have hep : 0 ≤ Engine.execPrice cfg.slippage r.signal r.close := by
      rcases h3 with ⟨hsig, _⟩
      simp only [Engine.execPrice, hsig]
      norm_num
      exact mul_nonneg hclose (by linarith)
    have hproceeds : 0 ≤ s.shares * Engine.execPrice cfg.slippage r.signal r.close :=
      mul_nonneg hs hep
    constructor
    · have : s.shares * Engine.execPrice cfg.slippage r.signal r.close * cfg.commission
          ≤ s.shares * Engine.execPrice cfg.slippage r.signal r.close :=
        mul_le_of_le_one_right hproceeds hcomm1
      have := sub_nonneg.mpr this
      exact add_nonneg hc this
    · norm_num
  · exact ⟨hc, hs⟩

/-- Along the whole engine trajectory cash and shares stay nonnegative. -/
theorem Engine.simAux_nonneg (cfg : Engine.Config)
    (hcomm0 : 0 ≤ cfg.commission) (hcomm1 : cfg.commission ≤ 1)
    (hpct : cfg.positionSizePct ≤ 1) (hslip1 : cfg.slippage ≤ 1)
    (rows : List Row) :
    ∀ (s : PortState), 0 ≤ s.cash → 0 ≤ s.shares →
      (∀ r ∈ rows, 0 ≤ r.close) →
      ∀ b ∈ Engine.simAux cfg s rows, 0 ≤ b.cash ∧ 0 ≤ b.shares := by
  induction rows with
  | nil => intro s _ _ _ b hb; simp [Engine.simAux] at hb
  | cons r rest ih =>
    intro s hc hs hcl b hb
    have hstep := Engine.step_preserves cfg r hcomm0 hcomm1 hpct hslip1
      (hcl r (List.mem_cons_self r rest)) s hc hs
    simp only [Engine.simAux, List.mem_cons] at hb
    rcases hb with rfl | hb
    · exact hstep
    · exact ih _ hstep.1 hstep.2 (fun x hx => hcl x (List.mem_cons_of_mem r hx)) b hb

/-- One metrics-module step keeps cash and shares nonnegative, under the
documented commission bound and a nonnegative close. -/
theorem PM.step_nonneg (commission : ℚ) (r : Row)
    (hcomm0 : 0 ≤ commission) (hcomm1 : commission ≤ 1) (hclose : 0 ≤ r.close)
    (s : PortState) (hc : 0 ≤ s.cash) (hs : 0 ≤ s.shares) :
    0 ≤ (PM.step commission s r).cash ∧ 0 ≤ (PM.step commission s r).shares := by
  simp only [PM.step]
  split_ifs with h1 h2
  · constructor
    · have : s.cash * (1 / 10) ≤ s.cash := by
        have := mul_le_of_le_one_right hc (by norm_num : (1 / 10 : ℚ) ≤ 1)
        simpa using this
      simpa using sub_nonneg.mpr this
    · have hinv : 0 ≤ s.cash * (1 / 10) := by positivity
      have hnum : 0 ≤ s.cash * (1 / 10) - s.cash * (1 / 10) * commission := by
        have := mul_le_of_le_one_right hinv hcomm1
        linarith
      exact add_nonneg hs (div_nonneg hnum hclose)
  · have hproceeds : 0 ≤ s.shares * r.close := mul_nonneg hs hclose
    constructor
    · have : s.shares * r.close * commission ≤ s.shares * r.close :=
        mul_le_of_le_one_right hproceeds hcomm1
      have := sub_nonneg.mpr this
      exact add_nonneg hc this
    · norm_num
  · exact ⟨hc, hs⟩

/-- Along the whole metrics-module loop cash and shares stay nonnegative. -/
theorem PM.simAux_state_nonneg (commission : ℚ)
    (hcomm0 : 0 ≤ commission) (hcomm1 : commission ≤ 1) (rows : List Row) :
    ∀ (s : PortState), 0 ≤ s.cash → 0 ≤ s.shares →
      (∀ r ∈ rows, 0 ≤ r.close) →
      ∀ b ∈ PM.simAux commission s rows, 0 ≤ b.cash ∧ 0 ≤ b.shares := by
  induction rows with
  | nil => intro s _ _ _ b hb; simp [PM.simAux] at hb
  | cons r rest ih =>
    intro s hc hs hcl b hb
    have hstep := PM.step_nonneg commission r hcomm0 hcomm1
      (hcl r (List.mem_cons_self r rest)) s hc hs
    simp only [PM.simAux, List.mem_cons] at hb
    rcases hb with rfl | hb
    · exact hstep
    · exact ih _ hstep.1 hstep.2 (fun x hx => hcl x (List.mem_cons_of_mem r hx)) b hb

/-- The sum of a nonempty list of negative rationals is negative. -/
theorem sum_neg_of_forall_neg (l : List ℚ) (h : ∀ x ∈ l, x < 0) (hne : l ≠ []) :
    l.sum < 0 := by
  induction l with
  | nil => exact absurd rfl hne
  | cons x xs ih =>
    have hx := h x (List.mem_cons_self x xs)
    rcases eq_or_ne xs [] with rfl | hxs
    · simpa using hx
    · have hxs' := ih (fun y hy => h y (List.mem_cons_of_mem x hy)) hxs
      simp only [List.sum_cons]
      linarith

/-- Every element of the mapped loss list is a negative profit. -/
theorem mem_losses_neg (trades : List PM.Trade) :
    ∀ y ∈ (trades.filter (fun t => t.profit < 0)).map (fun t => t.profit), y < 0 := by
  intro y hy
  rcases List.mem_map.mp hy with ⟨t, ht, rfl⟩
  simpa using (List.mem_filter.mp ht).2

/-- Every trade the metrics-module extraction emits is built by
`PM.closeTrade`, so its `return` field is the price return by construction. -/
theorem PM.extractAux_ret (pf : List BarRecord) :
    ∀ (i : ℕ) (entry : Option PM.EntryInfo), ∀ t ∈ PM.extractAux i entry pf,
      t.ret = (t.exitPrice - t.entryPrice) / t.entryPrice := by
  induction pf with
  | nil => intro i entry t ht; simp [PM.extractAux] at ht
  | cons b rest ih =>
    intro i entry t ht
    cases entry with
    | none =>
      simp only [PM.extractAux] at ht
      split at ht
      · exact ih _ _ t ht
      · exact ih _ _ t ht
    | some e =>
      simp only [PM.extractAux] at ht
      split at ht
      · rcases List.mem_cons.mp ht with rfl | ht
        · rfl
        · exact ih _ _ t ht
      · exact ih _ _ t ht

/-- Every trade the engine extraction emits is built by `Engine.closeTrade`,
so its `profit` and `profit_pct` fields satisfy the value-based formulas by
construction. -/
theorem Engine.extractAux_profitPct (pf : List BarRecord) :
    ∀ (i : ℕ) (entry : Option Engine.EntryInfo), ∀ t ∈ Engine.extractAux i entry pf,
      t.profit = t.exitValue - t.entryValue ∧
      t.profitPct = if 0 < t.entryValue
        then (t.exitValue - t.entryValue) / t.entryValue * 100 else 0 := by
  induction pf with
  | nil => intro i entry t ht; simp [Engine.extractAux] at ht
  | cons b rest ih =>
    intro i entry t ht
    cases entry with
    | none =>
      simp only [Engine.extractAux] at ht
      split at ht
      · exact ih _ _ t ht
      · exact ih _ _ t ht
    | some e =>
      simp only [Engine.extractAux] at ht
      split at ht
      · rcases List.mem_cons.mp ht with rfl | ht
        · exact ⟨rfl, rfl⟩
        · exact ih _ _ t ht
      · exact ih _ _ t ht

/-- With positive closes and nonnegative slippage every execution price a
buy divides by is nonzero, so the fallible simulation loop succeeds. -/
theorem Engine.simAuxE_ok (cfg : Engine.Config) (hslip : 0 ≤ cfg.slippage)
    (rows : List Row) :
    ∀ s, (∀ r ∈ rows, 0 < r.close) →
      ∃ out, Engine.simAuxE cfg s rows = some out := by
  induction rows with
  | nil => intro s _; exact ⟨[], rfl⟩
  | cons r rest ih =>
    intro s hcl
    have hr := hcl r (List.mem_cons_self r rest)
    have hstep : ∃ s2, Engine.stepE cfg s r = some s2 := by
      by_cases h1 : r.signal = 1 ∧ s.shares = 0
      · have heppos : (0 : ℚ) < Engine.execPrice cfg.slippage r.signal r.close := by
          simp only [Engine.execPrice]
          rw [if_pos h1.1]
          exact mul_pos hr (by linarith)
        simp only [Engine.stepE, if_pos h1, if_neg (ne_of_gt heppos)]
        split_ifs <;> exact ⟨_, rfl⟩
      · simp only [Engine.stepE, if_neg h1]
        split_ifs <;> exact ⟨_, rfl⟩
    obtain ⟨s2, hs2⟩ := hstep
    obtain ⟨out, hout⟩ := ih s2 (fun x hx => hcl x (List.mem_cons_of_mem r hx))
    exact ⟨record s2 r :: out, by simp [Engine.simAuxE, hs2, hout]⟩

/-! ### Claim theorems -/

/-- C7: at every bar of a simulated trajectory — whether produced by the
engine's simulator or by the metrics module's simulator, including the final
bar after any forced liquidation — `portfolio_value = cash + shares * close`
at the bar's unadjusted close. -/
theorem portfolio_value_accounting (cfg : Engine.Config)
    (initialCapital commission : ℚ) (rows : List Row) (b : BarRecord) :
    (b ∈ Engine.simulatePortfolio cfg rows →
      b.portfolioValue = b.cash + b.shares * b.close) ∧
    (b ∈ PM.simulatePortfolio initialCapital commission rows →
      b.portfolioValue = b.cash + b.shares * b.close) := by
  constructor
  · intro hb
    exact (Engine.simAux_shape cfg rows _ b hb).1
  · intro hb
    rcases PM.mem_simulatePortfolio initialCapital commission rows b hb with h | ⟨bl, rfl⟩
    · exact (PM.simAux_accounting commission rows _ b h).1
    · exact (PM.liquidate_shape commission bl).1

/-- Witness for C7: the first bar of a concrete two-bar run, present in both
simulators' trajectories, satisfies the accounting identity. -/
theorem portfolio_value_accounting_witness :
    (⟨1, 100, 10000, 1, 9000, 10⟩ : BarRecord) ∈
        Engine.simulatePortfolio ⟨10000, 0, 0, 1/10⟩ [⟨1, 100⟩, ⟨0, 100⟩] ∧
    (⟨1, 100, 10000, 1, 9000, 10⟩ : BarRecord) ∈
        PM.simulatePortfolio 10000 0 [⟨1, 100⟩, ⟨0, 100⟩] ∧
    (⟨1, 100, 10000, 1, 9000, 10⟩ : BarRecord).portfolioValue =
      (⟨1, 100, 10000, 1, 9000, 10⟩ : BarRecord).cash +
        (⟨1, 100, 10000, 1, 9000, 10⟩ : BarRecord).shares *
          (⟨1, 100, 10000, 1, 9000, 10⟩ : BarRecord).close := by
  refine ⟨?_, ?_, ?_⟩
  · norm_num [Engine.simulatePortfolio, Engine.simAux, Engine.step,
      Engine.execPrice, record]
  · norm_num [PM.simulatePortfolio, PM.simAux, PM.step, record, PM.liquidate]
  · exact (portfolio_value_accounting ⟨10000, 0, 0, 1/10⟩ 10000 0
      [⟨1, 100⟩, ⟨0, 100⟩] _).1
      (by norm_num [Engine.simulatePortfolio, Engine.simAux, Engine.step,
        Engine.execPrice, record])

/-- C1 counterexample: `BacktestEngine._simulate_portfolio` performs no
forced liquidation — on a concrete run that buys on bar 0 and never sells,
the final bar still holds 10 shares. -/
theorem engine_final_bar_keeps_shares :
    ((Engine.simulatePortfolio ⟨10000, 0, 0, 1/10⟩ [⟨1, 100⟩, ⟨0, 100⟩]).map
        (fun b => b.shares)).getLast? = some 10 ∧ (10 : ℚ) ≠ 0 := by
  constructor
  · norm_num [Engine.simulatePortfolio, Engine.simAux, Engine.step,
      Engine.execPrice, record]
  · norm_num

/-- C1 (amended): the forced-liquidation postcondition holds for the metrics
module's simulator: on any nonempty input (with the documented nonnegative
capital, commission at most one and nonnegative closes), the final bar of
`PM.simulatePortfolio` holds zero shares with a cleared position flag and an
all-cash value, and whenever the loop ends still holding shares the final
bar is exactly the liquidation overwrite of the loop's last record. -/
theorem forced_liquidation_postcondition (initialCapital commission : ℚ)
    (rows : List Row) (hcap : 0 ≤ initialCapital) (hcomm0 : 0 ≤ commission)
    (hcomm1 : commission ≤ 1) (hclose : ∀ r ∈ rows, 0 ≤ r.close)
    (hne : rows ≠ []) :
    ∃ b, (PM.simulatePortfolio initialCapital commission rows).getLast? = some b ∧
      b.shares = 0 ∧ b.position = 0 ∧ b.portfolioValue = b.cash ∧
      ∀ bl, (PM.simAux commission { cash := initialCapital, shares := 0 }
          rows).getLast? = some bl →
        0 < bl.shares → b = PM.liquidate commission bl := by
  have hrecs : PM.simAux commission { cash := initialCapital, shares := 0 } rows ≠ [] :=
    PM.simAux_ne_nil commission _ rows hne
  obtain ⟨b0, hb0⟩ : ∃ b0,
      (PM.simAux commission { cash := initialCapital, shares := 0 } rows).getLast? =
        some b0 :=
    Option.isSome_iff_exists.mp (List.getLast?_isSome.mpr hrecs)
  by_cases hpos : 0 < b0.shares
  · refine ⟨PM.liquidate commission b0, ?_, rfl, rfl, ?_, ?_⟩
    · simp only [PM.simulatePortfolio]
      rw [hb0]
      simp [hpos, List.getLast?_concat]
    · simp [PM.liquidate]
    · intro bl hbl hblpos
      rw [hb0] at hbl
      injection hbl with h
      rw [h]
  · have hmem : b0 ∈ PM.simAux commission { cash := initialCapital, shares := 0 } rows :=
      List.mem_of_mem_getLast? hb0
    have hnn := PM.simAux_state_nonneg commission hcomm0 hcomm1 rows _ hcap le_rfl hclose b0 hmem
    have hz : b0.shares = 0 := le_antisymm (not_lt.mp hpos) hnn.2
    have hshape := PM.simAux_accounting commission rows _ b0 hmem
    refine ⟨b0, ?_, hz, ?_, ?_, ?_⟩
    · simp only [PM.simulatePortfolio]
      rw [hb0]
      simp only [hpos, if_false]
      exact hb0
    · rw [hshape.2, hz]
      norm_num
    · rw [hshape.1, hz]
      norm_num
    · intro bl hbl hblpos
      rw [hb0] at hbl
      injection hbl with h
      rw [← h] at hblpos
      exact absurd hblpos hpos

/-- Witness for C1 (amended): a concrete one-bar run that buys and is then
force-liquidated at the same close. -/
theorem forced_liquidation_postcondition_witness :
    ∃ b, (PM.simulatePortfolio 10000 0 [⟨1, 100⟩]).getLast? = some b ∧
      b.shares = 0 ∧ b.position = 0 ∧ b.portfolioValue = b.cash ∧
      ∀ bl, (PM.simAux 0 { cash := 10000, shares := 0 } [⟨1, 100⟩]).getLast? =
          some bl →
        0 < bl.shares → b = PM.liquidate 0 bl :=
  forced_liquidation_postcondition 10000 0 [⟨1, 100⟩] (by norm_num) le_rfl
    (by norm_num) (by norm_num) (by norm_num)

/-- C10: along the engine's whole simulated trajectory, cash stays
nonnegative — given the documented configuration bounds (positive capital,
commission in [0,1), position-size fraction in (0,1], slippage in [0,1]
keeping execution prices nonnegative) and positive closes. -/
theorem cash_nonneg (cfg : Engine.Config) (rows : List Row)
    (hcap : 0 < cfg.initialCapital)
    (hcomm0 : 0 ≤ cfg.commission) (hcomm1 : cfg.commission < 1)
    (hpct0 : 0 < cfg.positionSizePct) (hpct1 : cfg.positionSizePct ≤ 1)
    (hslip0 : 0 ≤ cfg.slippage) (hslip1 : cfg.slippage ≤ 1)
    (hclose : ∀ r ∈ rows, 0 < r.close) :
    ∀ b ∈ Engine.simulatePortfolio cfg rows, 0 ≤ b.cash := by
  intro b hb
  exact (Engine.simAux_nonneg cfg hcomm0 (le_of_lt hcomm1) hpct1 hslip1 rows _
    (le_of_lt hcap) le_rfl (fun r hr => le_of_lt (hclose r hr)) b hb).1

/-- Witness for C10: a concrete buy-then-sell run whose first bar has
nonnegative cash. -/
theorem cash_nonneg_witness :
    (⟨1, 100, 10000, 1, 9000, 10⟩ : BarRecord) ∈
        Engine.simulatePortfolio ⟨10000, 0, 0, 1/10⟩ [⟨1, 100⟩, ⟨0, 100⟩] ∧
    0 ≤ (⟨1, 100, 10000, 1, 9000, 10⟩ : BarRecord).cash := by
  constructor
  · norm_num [Engine.simulatePortfolio, Engine.simAux, Engine.step,
      Engine.execPrice, record]
  · exact cash_nonneg ⟨10000, 0, 0, 1/10⟩ [⟨1, 100⟩, ⟨0, 100⟩] (by norm_num)
      le_rfl (by norm_num) (by norm_num) (by norm_num) le_rfl (by norm_num)
      (by norm_num) _
      (by norm_num [Engine.simulatePortfolio, Engine.simAux, Engine.step,
        Engine.execPrice, record])

/-- C2: buy-step semantics of the engine's simulator.  On a bar with
`signal = +1` and no shares held, the state update is exactly
`invest = cash * position_size_pct`, `commission_cost = invest * commission`,
`shares += (invest - commission_cost) / execution_price` with
`execution_price = close * (1 + slippage)`, and `cash -= invest`; on a bar
with `signal = +1` and shares already held, the state is unchanged.  The
hypotheses are the documented preconditions: a positive close, nonnegative
slippage, nonnegative cash, nonnegative position-size fraction and
commission below one. -/
theorem buy_step_semantics (cfg : Engine.Config) (s : PortState) (r : Row)
    (hsig : r.signal = 1) (hprice : 0 < r.close) (hslip : 0 ≤ cfg.slippage)
    (hcash : 0 ≤ s.cash) (hpct : 0 ≤ cfg.positionSizePct)
    (hcomm : cfg.commission < 1) :
    (s.shares = 0 →
      Engine.step cfg s r =
        { cash := s.cash - s.cash * cfg.positionSizePct,
          shares := s.shares +
            (s.cash * cfg.positionSizePct -
              s.cash * cfg.positionSizePct * cfg.commission) /
              (r.close * (1 + cfg.slippage)) }) ∧
    (0 < s.shares → Engine.step cfg s r = s) := by
  have hep : 0 < r.close * (1 + cfg.slippage) := mul_pos hprice (by linarith)
  constructor
  · intro hsh
    simp only [Engine.step, Engine.execPrice, hsig, if_true, hsh]
    norm_num
    intro hguard
    have hinv : 0 ≤ s.cash * cfg.positionSizePct := mul_nonneg hcash hpct
    have hnum : 0 ≤ s.cash * cfg.positionSizePct -
        s.cash * cfg.positionSizePct * cfg.commission := by
      nlinarith [mul_nonneg hinv (show (0:ℚ) ≤ 1 - cfg.commission by linarith)]
    have hq : 0 ≤ (s.cash * cfg.positionSizePct -
        s.cash * cfg.positionSizePct * cfg.commission) /
        (r.close * (1 + cfg.slippage)) := div_nonneg hnum (le_of_lt hep)
    have hz : (s.cash * cfg.positionSizePct -
        s.cash * cfg.positionSizePct * cfg.commission) /
        (r.close * (1 + cfg.slippage)) = 0 :=
      le_antisymm hguard hq
    have hinv0 : s.cash * cfg.positionSizePct = 0 := by
      rcases div_eq_zero_iff.mp hz with h | h
      · have h' : s.cash * cfg.positionSizePct * (1 - cfg.commission) = 0 := by
          linear_combination h
        rcases mul_eq_zero.mp h' with h'' | h''
        · exact h''
        · exact absurd h'' (by intro hx; linarith)
      · exact absurd h (ne_of_gt hep)
    refine PortState.ext ?_ ?_
    · rw [hinv0]; ring
    · rw [hz, hsh]
  · intro hpos
    norm_num [Engine.step, hsig, hpos.ne']

/-- Witness for C2: a concrete buy at close 100 with 10000 cash, 10 percent
sizing and zero commission and slippage. -/
theorem buy_step_semantics_witness :
    Engine.step ⟨10000, 0, 0, 1/10⟩ ⟨10000, 0⟩ ⟨1, 100⟩ =
      { cash := 10000 - 10000 * (1/10),
        shares := 0 + (10000 * (1/10) - 10000 * (1/10) * 0) / (100 * (1 + 0)) } :=
  (buy_step_semantics ⟨10000, 0, 0, 1/10⟩ ⟨10000, 0⟩ ⟨1, 100⟩ rfl (by norm_num)
    le_rfl (by norm_num) (by norm_num) (by norm_num)).1 rfl

/-- C3 counterexample: the source's buy-and-hold benchmark does not track a
configured position-size fraction — `position_size_pct` is hardcoded to 0.1
inside `_calculate_buy_hold_return`.  With the configured fraction 1 (which
lies in (0,1]), closes 100 → 200, capital 10000 and zero commission, the
code returns 0.1 while the spec-worded benchmark sized by the configured
fraction returns 1. -/
theorem buy_hold_ignores_position_size :
    (0 : ℚ) < 1 ∧ (1 : ℚ) ≤ 1 ∧
    PM.calculateBuyHoldReturn [100, 200] 10000 0 = 1/10 ∧
    PM.buyHoldReturnSpec 1 [100, 200] 10000 0 = 1 ∧
    PM.calculateBuyHoldReturn [100, 200] 10000 0 ≠
      PM.buyHoldReturnSpec 1 [100, 200] 10000 0 := by
  norm_num [PM.calculateBuyHoldReturn, PM.buyHoldReturnSpec, List.getLast_singleton]

/-- C3 (amended): the buy-and-hold benchmark always behaves as the
spec-worded benchmark at the fixed fraction 0.1 — the metrics module's own
simulator also hardcodes 0.1, so benchmark and strategy sizing agree only at
that fixed value, not for every configured fraction. -/
theorem buy_hold_fixed_tenth (closes : List ℚ) (initialCapital commission : ℚ) :
    PM.calculateBuyHoldReturn closes initialCapital commission =
      PM.buyHoldReturnSpec (1/10) closes initialCapital commission := by
  cases closes with
  | nil => rfl
  | cons c0 rest =>
    cases rest with
    | nil => rfl
    | cons c1 rest2 => rfl

/-- C4 counterexample: a single break-even round trip (constant close, zero
commission) yields `winning_trades = 0` and `total_trades = 1`, yet the
code's profit factor is `+∞`, not the `0` the claim states — the source
falls into the `float('inf')` branch whenever the loss total is zero, even
with no wins. -/
theorem profit_factor_breakeven_trade :
    (PM.calculateMetricsCore [⟨1, 100⟩, ⟨-1, 100⟩] 10000 0).winningTrades = 0 ∧
    (PM.calculateMetricsCore [⟨1, 100⟩, ⟨-1, 100⟩] 10000 0).totalTrades = 1 ∧
    (PM.calculateMetricsCore [⟨1, 100⟩, ⟨-1, 100⟩] 10000 0).profitFactor = ⊤ ∧
    (⊤ : WithTop ℚ) ≠ ((0 : ℚ) : WithTop ℚ) := by
  refine ⟨?_, ?_, ?_, ?_⟩ <;>
    norm_num [PM.calculateMetricsCore, PM.simulatePortfolio, PM.simAux, PM.step,
      record, PM.liquidate, PM.extractTrades, PM.extractAux, PM.closeTrade,
      PM.profitFactor]

/-- C4 (amended): `profit_factor` equals the positive-profit sum divided by
the absolute negative-profit sum whenever losing trades exist; it is `+∞`
whenever no losing trade exists (in particular when wins exist and losses
do not, but also when all trades break even); and it is `0` exactly when no
winning trade exists while losing trades do. -/
theorem profit_factor_policy (trades : List PM.Trade) :
    ((trades.filter (fun t => t.profit < 0)) ≠ [] →
      PM.profitFactor trades =
        ((((trades.filter (fun t => 0 < t.profit)).map (fun t => t.profit)).sum /
          |((trades.filter (fun t => t.profit < 0)).map (fun t => t.profit)).sum| : ℚ) :
          WithTop ℚ)) ∧
    ((trades.filter (fun t => t.profit < 0)) = [] →
      PM.profitFactor trades = ⊤) ∧
    ((trades.filter (fun t => 0 < t.profit)) = [] →
      (trades.filter (fun t => t.profit < 0)) ≠ [] →
      PM.profitFactor trades = ((0 : ℚ) : WithTop ℚ)) := by
  have habs : (trades.filter (fun t => t.profit < 0)) ≠ [] →
      0 < |((trades.filter (fun t => t.profit < 0)).map (fun t => t.profit)).sum| := by
    intro hne
    have hmapne : (trades.filter (fun t => t.profit < 0)).map (fun t => t.profit) ≠ [] :=
      fun h => hne (List.map_eq_nil_iff.mp h)
    exact abs_pos.mpr (ne_of_lt (sum_neg_of_forall_neg _ (mem_losses_neg trades) hmapne))
  refine ⟨?_, ?_, ?_⟩
  · intro hne
    simp only [PM.profitFactor]
    rw [if_pos (habs hne)]
  · intro he
    simp only [PM.profitFactor, he]
    norm_num
  · intro hw hne
    simp only [PM.profitFactor, hw]
    rw [if_pos (habs hne)]
    norm_num

/-- Witness for C4 (amended): one losing trade with profit −100 gives
profit factor 0/|−100| = 0. -/
theorem profit_factor_policy_witness :
    PM.profitFactor [⟨0, 1, 100, 90, -100, -1/10, 2⟩] = ((0 : ℚ) : WithTop ℚ) :=
  (profit_factor_policy [⟨0, 1, 100, 90, -100, -1/10, 2⟩]).2.2
    (by norm_num) (by norm_num)

/-- C5 counterexample: on a concrete engine run (buy at close 100, sell at
close 150, 10 percent sizing, no costs) the single extracted trade has
`profit_pct = 5` — profit relative to entry portfolio value, times 100 —
while `(exit_price − entry_price)/entry_price = 1/2`.  The engine's
`profit_pct` is not the price return the claim states. -/
theorem trade_profit_pct_not_price_return :
    (Engine.extractTrades (Engine.simulatePortfolio ⟨10000, 0, 0, 1/10⟩
        [⟨1, 100⟩, ⟨-1, 150⟩])).map (fun t => t.profitPct) = [5] ∧
    (Engine.extractTrades (Engine.simulatePortfolio ⟨10000, 0, 0, 1/10⟩
        [⟨1, 100⟩, ⟨-1, 150⟩])).map
        (fun t => (t.exitPrice - t.entryPrice) / t.entryPrice) = [1/2] ∧
    (5 : ℚ) ≠ 1/2 := by
  refine ⟨?_, ?_, by norm_num⟩ <;>
    norm_num [Engine.extractTrades, Engine.extractAux, Engine.closeTrade,
      Engine.simulatePortfolio, Engine.simAux, Engine.step, Engine.execPrice, record]

/-- C5 (amended): in the metrics-module extractor the price return
`(exit_price − entry_price)/entry_price` is recorded under the dict key
`return`; the engine extractor's `profit_pct` field instead equals
`100 · (exit_value − entry_value)/entry_value` (and `0` when the entry
value is not positive), with `profit = exit_value − entry_value` in both. -/
theorem trade_return_formulas (pf : List BarRecord) :
    (∀ t ∈ PM.extractTrades pf,
      t.ret = (t.exitPrice - t.entryPrice) / t.entryPrice) ∧
    (∀ t ∈ Engine.extractTrades pf,
      t.profit = t.exitValue - t.entryValue ∧
      t.profitPct = if 0 < t.entryValue
        then (t.exitValue - t.entryValue) / t.entryValue * 100 else 0) := by
  constructor
  · exact fun t ht => PM.extractAux_ret pf 0 none t ht
  · exact fun t ht => Engine.extractAux_profitPct pf 0 none t ht

/-- Witness for C5 (amended): the trade extracted from a concrete two-bar
trajectory satisfies the metrics-module price-return formula. -/
theorem trade_return_formulas_witness :
    (⟨0, 1, 100, 150, 500, 1/2, 2⟩ : PM.Trade) ∈
        PM.extractTrades
          [⟨1, 100, 10000, 1, 9000, 10⟩, ⟨-1, 150, 10500, 0, 10500, 0⟩] ∧
    (⟨0, 1, 100, 150, 500, 1/2, 2⟩ : PM.Trade).ret =
      ((⟨0, 1, 100, 150, 500, 1/2, 2⟩ : PM.Trade).exitPrice -
        (⟨0, 1, 100, 150, 500, 1/2, 2⟩ : PM.Trade).entryPrice) /
        (⟨0, 1, 100, 150, 500, 1/2, 2⟩ : PM.Trade).entryPrice := by
  constructor
  · norm_num [PM.extractTrades, PM.extractAux, PM.closeTrade]
  · exact (trade_return_formulas
      [⟨1, 100, 10000, 1, 9000, 10⟩, ⟨-1, 150, 10500, 0, 10500, 0⟩]).1 _
      (by norm_num [PM.extractTrades, PM.extractAux, PM.closeTrade])

/-- C6: Sortino-ratio edge policy.  For any sample-std implementation and
any numeric value of √252: the ratio is `0` when no returns exist, `+∞`
when returns exist but none are negative, and otherwise (for a nonzero
downside denominator) exactly
`(mean(r)·252 − risk_free_rate) / (std(negative returns) · √252)`. -/
theorem sortino_edge_policy (std : List ℚ → ℚ) (sqrt252 : ℚ)
    (returns : List ℚ) (riskFreeRate : ℚ) :
    (returns = [] →
      PM.sortino std sqrt252 returns riskFreeRate = ((0 : ℚ) : WithTop ℚ)) ∧
    (returns ≠ [] → returns.filter (fun r => r < 0) = [] →
      PM.sortino std sqrt252 returns riskFreeRate = ⊤) ∧
    (returns.filter (fun r => r < 0) ≠ [] →
      std (returns.filter (fun r => r < 0)) * sqrt252 ≠ 0 →
      PM.sortino std sqrt252 returns riskFreeRate =
        (((PM.mean returns * 252 - riskFreeRate) /
          (std (returns.filter (fun r => r < 0)) * sqrt252) : ℚ) : WithTop ℚ)) := by
  refine ⟨?_, ?_, ?_⟩
  · intro he
    simp [PM.sortino, he]
  · intro hne hf
    simp [PM.sortino, hne, hf]
  · intro hf hstd
    have hne : returns ≠ [] := by
      intro h
      rw [h] at hf
      exact hf rfl
    simp [PM.sortino, hne, hf, hstd]

/-- Witness for C6: one negative return −1 with unit std and unit √252
parameter gives Sortino −252. -/
theorem sortino_edge_policy_witness :
    PM.sortino (fun _ => 1) 1 [-1] 0 = ((-252 : ℚ) : WithTop ℚ) := by
  have h := (sortino_edge_policy (fun _ => 1) 1 [-1] 0).2.2 (by norm_num)
    (by norm_num)
  rw [h]
  norm_num [PM.mean]

/-- C8: `run_backtest` errors out before the simulation whenever a required
OHLCV column is missing or the bar count is below the strategy's declared
minimum history; and on input passing validation — with the documented
positive closes and nonnegative slippage — the whole run, simulation loop
included, succeeds with no error. -/
theorem validation_before_simulation (cfg : Engine.Config)
    (strat : Engine.Strategy) (data : Engine.InputData) :
    (Engine.missingColumns data ≠ [] ∨
        data.closes.length < strat.requiredHistory →
      ∃ e, Engine.runBacktest cfg strat data = .error e) ∧
    (Engine.missingColumns data = [] → 50 ≤ data.closes.length →
      strat.requiredHistory ≤ data.closes.length →
      (∀ c ∈ data.closes, 0 < c) → 0 ≤ cfg.slippage →
      ∃ out, Engine.runBacktest cfg strat data = .ok out) := by
  constructor
  · intro hbad
    by_cases hmiss : Engine.missingColumns data = []
    · rcases hbad with hbad | hlen
      · exact absurd hmiss hbad
      · by_cases h50 : data.closes.length < 50
        · exact ⟨"Insufficient data",
            by simp [Engine.runBacktest, Engine.validateData, hmiss, h50]⟩
        · exact ⟨"Insufficient data for strategy",
            by simp [Engine.runBacktest, Engine.validateData, Engine.strategySetup,
              hmiss, h50, hlen]⟩
    · exact ⟨"Data missing required columns",
        by simp [Engine.runBacktest, Engine.validateData, hmiss]⟩
  · intro hmiss h50 hreq hcl hslip
    obtain ⟨out, hout⟩ := Engine.simAuxE_ok cfg hslip
      (((strat.genSignals data.closes).zip data.closes).map
        (fun p => { signal := p.1, close := p.2 }))
      { cash := cfg.initialCapital, shares := 0 }
      (by
        intro r hr
        rcases List.mem_map.mp hr with ⟨p, hp, rfl⟩
        exact hcl _ (List.of_mem_zip hp).2)
    exact ⟨out, by simp [Engine.runBacktest, Engine.validateData,
      Engine.strategySetup, hmiss, not_lt.mpr h50, not_lt.mpr hreq, hout]⟩

/-- Witness for C8: a concrete valid input — all five OHLCV columns, 50 bars
of constant close 100, a strategy requiring 50 bars — runs to completion. -/
theorem validation_before_simulation_witness :
    ∃ out, Engine.runBacktest ⟨10000, 1/1000, 0, 1/10⟩ ⟨50, fun _ => []⟩
      ⟨Engine.requiredColumns, List.replicate 50 100⟩ = .ok out :=
  (validation_before_simulation ⟨10000, 1/1000, 0, 1/10⟩ ⟨50, fun _ => []⟩
    ⟨Engine.requiredColumns, List.replicate 50 100⟩).2
    (by simp [Engine.missingColumns])
    (by simp)
    (by simp)
    (by
      intro c hc
      rw [List.eq_of_mem_replicate hc]
      norm_num)
    le_rfl

/-- C9: the simulation, trade extraction and metrics pipeline is a pure
function of its `(price, signal, configuration)` input — equal inputs give
equal trajectories, equal trade lists and equal metric records, for both
the engine pipeline and the metrics-module pipeline. -/
theorem backtest_deterministic (cfg1 cfg2 : Engine.Config)
    (rows1 rows2 : List Row) (cap1 cap2 comm1 comm2 : ℚ)
    (hcfg : cfg1 = cfg2) (hrows : rows1 = rows2) (hcap : cap1 = cap2)
    (hcomm : comm1 = comm2) :
    Engine.simulatePortfolio cfg1 rows1 = Engine.simulatePortfolio cfg2 rows2 ∧
    Engine.extractTrades (Engine.simulatePortfolio cfg1 rows1) =
      Engine.extractTrades (Engine.simulatePortfolio cfg2 rows2) ∧
    PM.simulatePortfolio cap1 comm1 rows1 = PM.simulatePortfolio cap2 comm2 rows2 ∧
    PM.extractTrades (PM.simulatePortfolio cap1 comm1 rows1) =
      PM.extractTrades (PM.simulatePortfolio cap2 comm2 rows2) ∧
    PM.calculateMetricsCore rows1 cap1 comm1 =
      PM.calculateMetricsCore rows2 cap2 comm2 := by
  subst hcfg
  subst hrows
  subst hcap
  subst hcomm
  exact ⟨rfl, rfl, rfl, rfl, rfl⟩

/-- Witness for C9: the concrete one-bar pipeline equals itself on a
repeated run. -/
theorem backtest_deterministic_witness :
    Engine.simulatePortfolio ⟨10000, 0, 0, 1/10⟩ [⟨1, 100⟩] =
      Engine.simulatePortfolio ⟨10000, 0, 0, 1/10⟩ [⟨1, 100⟩] :=
  (backtest_deterministic ⟨10000, 0, 0, 1/10⟩ ⟨10000, 0, 0, 1/10⟩
    [⟨1, 100⟩] [⟨1, 100⟩] 10000 10000 0 0 rfl rfl rfl rfl).1

end StockPicker

section Sanity

open StockPicker

example :
    PM.simulatePortfolio 10000 0 [⟨1, 100⟩, ⟨-1, 100⟩] =
      [⟨1, 100, 10000, 1, 9000, 10⟩, ⟨-1, 100, 10000, 0, 10000, 0⟩] := by
  norm_num [PM.simulatePortfolio, PM.simAux, PM.step, record, PM.liquidate]

example :
    PM.simulatePortfolio 10000 0 [⟨1, 100⟩] = [⟨1, 100, 10000, 0, 10000, 0⟩] := by
  norm_num [PM.simulatePortfolio, PM.simAux, PM.step, record, PM.liquidate]

example :
    Engine.simulatePortfolio ⟨10000, 0, 0, 1/10⟩ [⟨1, 100⟩, ⟨0, 100⟩] =
      [⟨1, 100, 10000, 1, 9000, 10⟩, ⟨0, 100, 10000, 1, 9000, 10⟩] := by
  norm_num [Engine.simulatePortfolio, Engine.simAux, Engine.step, Engine.execPrice, record]

end Sanity
